import Mathlib

/-!
Verification of the entity-classification computed artifact
(src/core/computed/entity-classification.js) and of the single-flight
dependency-cache wrapper it is registered with.

The JavaScript code is shallowly embedded: JS `Map`s become association
lists with first-match lookup, JS `Set`s become duplicate-free insertion
lists, and JS object reference identity (the `===` the classifier relies
on for its identity invariant) is modelled by stamping every freshly
allocated Entity object with a unique allocation number `eid`; equality of
embedded `Entity` values therefore coincides with reference equality of
the corresponding JS objects.

Helpers that the excerpt imports from elsewhere in the repository
(UrlUtils.isValid, Util.createOrReturnURL, Util.getChromeExtensionOrigin,
Util.getRootDomain, the third-party-web dataset accessor `getEntity`, and
the computed-artifact wrapper) are not part of the excerpt; they are
modelled from the spec, as marked on each such definition.  The
known-entity reference (`thirdPartyWeb.getEntity`) is kept as an explicit
opaque function parameter `ge`, exactly as the spec treats it.
-/

set_option maxRecDepth 4000

/-- Association-list lookup with first-match semantics: the embedding of
`Map.get` (a JS `Map` never holds a key twice, and every list built below
keeps that shape). -/
def alookup {α : Type} {β : Type} [DecidableEq α] : List (α × β) → α → Option β
  | [], _ => none
  | (k, v) :: rest, key => if k = key then some v else alookup rest key

/-- Association-list update: the embedding of `Map.set` — replace the
binding if the key is present, append a fresh binding otherwise. -/
def aset {α : Type} {β : Type} [DecidableEq α] : List (α × β) → α → β → List (α × β)
  | [], key, v => [(key, v)]
  | (k, w) :: rest, key, v =>
      if k = key then (key, v) :: rest else (k, w) :: aset rest key v

/-- Embedding of `Set.add` on a set of URL strings: append unless already
a member. -/
def setAdd (s : List String) (u : String) : List String :=
  if u ∈ s then s else s ++ [u]

/-- Characters of a URL up to (excluding) the first colon: the scheme. -/
def schemeChars (cs : List Char) : List Char :=
  cs.takeWhile (fun c => c ≠ ':')

/-- Whether a list starts with the given pattern; used to embed the JS
`String.prototype.startsWith` tests of the source. -/
def listStartsWith {α : Type} [DecidableEq α] : List α → List α → Bool
  | _, [] => true
  | [], _ :: _ => false
  | c :: cs, p :: ps => c = p && listStartsWith cs ps

/-- Modelled from the spec: `UrlUtils.isValid` is outside the excerpt.  A
URL is structurally valid when it carries a scheme — a leading letter
followed by letters, digits, plus, minus or dot, terminated by a colon
(so `data:` and `about:` URLs are structurally valid and are rejected
later, at the scheme check, as the spec's edge-case policy requires). -/
def isValidUrl (url : String) : Bool :=
  let cs := url.toList
  match schemeChars cs with
  | [] => false
  | c :: rest =>
      c.isAlpha && rest.all (fun d => d.isAlpha || d.isDigit || d = '+' || d = '-' || d = '.')
        && (schemeChars cs).length < cs.length

/-- Modelled from the spec: the host component a parsed URL exposes
(`Util.createOrReturnURL(url)` and `new URL(...)` are outside the
excerpt): the characters between the `://` that follows the scheme and
the next slash; empty when the URL has no authority part. -/
def hostChars (cs : List Char) : List Char :=
  match cs.dropWhile (fun c => c ≠ ':') with
  | ':' :: '/' :: '/' :: rest => rest.takeWhile (fun c => c ≠ '/')
  | _ => []

/-- Modelled from the spec: `Util.getChromeExtensionOrigin` is outside the
excerpt — the extension's origin identifier `chrome-extension://host`;
nothing when the URL has no host. -/
def getChromeExtensionOrigin (url : String) : Option String :=
  let h := hostChars url.toList
  if h = [] then none else some ("chrome-extension://" ++ String.mk h)

/-- Splitting a character list on a separator character (used for the
host-label decomposition of the root-domain computation). -/
def splitOnChar (sep : Char) : List Char → List (List Char)
  | [] => [[]]
  | c :: cs =>
      match splitOnChar sep cs with
      | [] => [[c]]
      | l :: ls => if c = sep then [] :: l :: ls else (c :: l) :: ls

/-- Rejoining host labels with dots. -/
def joinDots : List (List Char) → List Char
  | [] => []
  | [l] => l
  | l :: ls => l ++ '.' :: joinDots ls

/-- Multi-label public suffixes recognised by the root-domain model (the
spec names `example.co.uk` as the representative case). -/
def multiPartSuffixes : List String :=
  ["co.uk", "com.au", "co.jp", "org.uk", "gov.uk"]

/-- Modelled from the spec: `Util.getRootDomain` is outside the excerpt —
the public-suffix-aware registrable domain of the URL's host: the last
two host labels, or the last three when the last two form a multi-label
public suffix; nothing when no root domain is derivable (no host, an
empty label, an all-numeric bare IP, or too few labels). -/
def getRootDomain (url : String) : Option String :=
  let h := hostChars url.toList
  if h = [] then none
  else
    let labels := splitOnChar '.' h
    if labels.any (fun l => l.isEmpty) then none
    else if labels.all (fun l => l.all (fun c => c.isDigit)) then none
    else if labels.length < 2 then none
    else
      let lastTwo := joinDots (labels.drop (labels.length - 2))
      if String.mk lastTwo ∈ multiPartSuffixes then
        if labels.length < 3 then none
        else some (String.mk (joinDots (labels.drop (labels.length - 3))))
      else some (String.mk lastTwo)

/-- Whether the parsed URL's protocol is `chrome-extension:`
(entity-classification.js line 25). -/
def isChromeExtensionUrl (url : String) : Bool :=
  decide (schemeChars url.toList = "chrome-extension".toList)

/-- The canonical cache key `makeUpAnEntity` derives from a URL
(entity-classification.js lines 22–31): nothing for an invalid URL or a
scheme other than http(s)/chrome-extension; the extension origin for
chrome-extension URLs; the root domain for http(s) URLs (nothing when
none is derivable — the JS code treats an absent or empty rootDomain as
falsy and bails out). -/
def canonicalKey (url : String) : Option String :=
  if !isValidUrl url then none
  else if !isChromeExtensionUrl url
      && !listStartsWith (schemeChars url.toList) "http".toList then none
  else if isChromeExtensionUrl url then getChromeExtensionOrigin url
  else getRootDomain url

/-- The Entity record of the data model.  `eid` is the allocation stamp
modelling JS object identity: every `{...}` object literal the source
evaluates yields a fresh `eid`, so equality of embedded values is
reference equality of the JS objects.  `homepage` and `isUnrecognized`
default to `none`/`false`, the embedding of a field omitted from a JS
object literal (an absent property reads as undefined, which is falsy). -/
structure Entity where
  name : String
  company : String
  category : String
  categories : List String
  domains : List String
  homepage : Option String := none
  averageExecutionTime : Nat
  totalExecutionTime : Nat
  totalOccurrences : Nat
  isUnrecognized : Bool := false
  eid : Nat
deriving DecidableEq, Repr

/-- The synthesized-entity cache (`madeUpEntityCache`) together with the
next free allocation stamp. -/
structure SynthState where
  cache : List (String × Entity)
  nextId : Nat
deriving DecidableEq, Repr

/-- entity-classification.js lines 21–47, `makeUpAnEntity`: derive the
canonical key (validity, scheme and key checks, lines 22–31); return the
cached entity when the key is present (line 32); otherwise allocate the
unrecognized placeholder entity (lines 34–44), insert it under the key
(line 45) and return it. -/
def makeUpAnEntity (st : SynthState) (url : String) : Option Entity × SynthState :=
  match canonicalKey url with
  | none => (none, st)
  | some rootDomain =>
      match alookup st.cache rootDomain with
      | some e => (some e, st)
      | none =>
          let unrecognizedEntity : Entity :=
            { name := rootDomain
              company := rootDomain
              category := ""
              categories := []
              domains := if isChromeExtensionUrl url then [] else [rootDomain]
              averageExecutionTime := 0
              totalExecutionTime := 0
              totalOccurrences := 0
              isUnrecognized := true
              eid := st.nextId }
          (some unrecognizedEntity,
            ⟨aset st.cache rootDomain unrecognizedEntity, st.nextId + 1⟩)

/-- The entity `makeUpAnEntity` allocates on a cache miss (the object
literal of entity-classification.js lines 34–44, named for reuse in
statements). -/
def freshEntity (k : String) (url : String) (n : Nat) : Entity :=
  { name := k
    company := k
    category := ""
    categories := []
    domains := if isChromeExtensionUrl url then [] else [k]
    averageExecutionTime := 0
    totalExecutionTime := 0
    totalOccurrences := 0
    isUnrecognized := true
    eid := n }

/-- One protocol-log event, carrying the only payload fields the source
reads: `method`, `params.context.origin` and `params.context.name`. -/
structure LogEntry where
  method : String
  origin : String
  name : String
deriving DecidableEq, Repr

/-- The entity the preload loop allocates for an unseen extension origin
(the object literal of entity-classification.js lines 64–74, named for
reuse in statements). -/
def preloadEntity (entry : LogEntry) (n : Nat) : Entity :=
  { name := entry.name
    company := entry.name
    category := "Chrome Extension"
    homepage := some ("https://chromewebstore.google.com/detail/"
      ++ String.mk (hostChars entry.origin.toList))
    categories := []
    domains := []
    averageExecutionTime := 0
    totalExecutionTime := 0
    totalOccurrences := 0
    eid := n }

/-- entity-classification.js lines 55–75: the body of the preload loop
for one devtools-log entry — skip anything that is not an
`executionContextCreated` event for an unseen chrome-extension origin;
otherwise allocate the extension entity (category "Chrome Extension",
homepage pointing at the extension store) and cache it under the full
origin string. -/
def preloadOne (st : SynthState) (entry : LogEntry) : SynthState :=
  if entry.method ≠ "Runtime.executionContextCreated" then st
  else if !listStartsWith entry.origin.toList "chrome-extension:".toList then st
  else if (alookup st.cache entry.origin).isSome then st
  else
    let host := String.mk (hostChars entry.origin.toList)
    let e : Entity :=
      { name := entry.name
        company := entry.name
        category := "Chrome Extension"
        homepage := some ("https://chromewebstore.google.com/detail/" ++ host)
        categories := []
        domains := []
        averageExecutionTime := 0
        totalExecutionTime := 0
        totalOccurrences := 0
        eid := st.nextId }
    ⟨aset st.cache entry.origin e, st.nextId + 1⟩

/-- entity-classification.js lines 54–76,
`preloadChromeExtensionsToCache_`: fold the preload body over the
devtools log in order. -/
def preloadChromeExtensionsToCache_ (st : SynthState) (devtoolsLog : List LogEntry) : SynthState :=
  devtoolsLog.foldl preloadOne st

/-- One network record; only its `url` field is read by the source. -/
structure NetworkRecord where
  url : String
deriving DecidableEq, Repr

/-- The `URL` artifact: `{mainDocumentUrl?, finalDisplayedUrl}`. -/
structure URLArtifact where
  mainDocumentUrl : Option String
  finalDisplayedUrl : String
deriving DecidableEq, Repr

/-- The mutable state of `compute_`'s classification loop: the
synthesized-entity cache plus the two result maps. -/
structure ClassState where
  synth : SynthState
  entityByUrl : List (String × Entity)
  urlsByEntity : List (Entity × List String)
deriving DecidableEq, Repr

/-- entity-classification.js lines 102–105: record a classified URL —
add it to the entity's URL set and to `entityByUrl`.  (The JS
`Map<Entity, Set<string>>` is keyed by entity object reference, embedded
here by keying on the `eid`-stamped value.) -/
def addClassified (st : ClassState) (entity : Entity) (url : String) : ClassState :=
  let entityURLs := (alookup st.urlsByEntity entity).getD []
  { st with
    urlsByEntity := aset st.urlsByEntity entity (setAdd entityURLs url)
    entityByUrl := aset st.entityByUrl url entity }

/-- entity-classification.js lines 94–106: the body of the record loop
for one network record — skip an already classified URL; otherwise try
the known-entity reference `ge` and, only when it yields nothing, the
synthesis path (JS `||` short-circuits, so the cache is untouched when
the reference matches); skip the record when neither produces an
entity. -/
def classifyRecord (ge : String → Option Entity) (st : ClassState)
    (record : NetworkRecord) : ClassState :=
  let url := record.url
  if (alookup st.entityByUrl url).isSome then st
  else
    match ge url with
    | some entity => addClassified st entity url
    | none =>
        match makeUpAnEntity st.synth url with
        | (none, synth2) => { st with synth := synth2 }
        | (some entity, synth2) => addClassified { st with synth := synth2 } entity url

/-- entity-classification.js lines 86–92: the state `compute_` has built
before the record loop — empty maps and the cache preloaded with the
chrome-extension origins of the devtools log. -/
def initialState (devtoolsLog : List LogEntry) : ClassState :=
  ⟨preloadChromeExtensionsToCache_ ⟨[], 0⟩ devtoolsLog, [], []⟩

/-- entity-classification.js lines 94–106: the state after classifying
every network record in record order. -/
def recordsState (ge : String → Option Entity) (devtoolsLog : List LogEntry)
    (networkRecords : List NetworkRecord) : ClassState :=
  networkRecords.foldl (classifyRecord ge) (initialState devtoolsLog)

/-- The JS truthiness of `a || b` on an optional string: an absent or
empty `mainDocumentUrl` falls through to `finalDisplayedUrl`
(entity-classification.js line 111). -/
def jsOrString (o : Option String) (d : String) : String :=
  match o with
  | some s => if s = "" then d else s
  | none => d

/-- entity-classification.js lines 83–123, `compute_`, with the final
internal state kept so that invariants over the synthesized-entity cache
can be stated: preload, classify all records, then resolve first party
from `mainDocumentUrl || finalDisplayedUrl` by reference lookup and, only
on a miss, synthesis through the same cache.  Yields the final state and
the `firstParty` value. -/
def computeState (ge : String → Option Entity) (data_URL : URLArtifact)
    (devtoolsLog : List LogEntry) (networkRecords : List NetworkRecord) :
    ClassState × Option Entity :=
  let st2 := recordsState ge devtoolsLog networkRecords
  let firstPartyUrl := jsOrString data_URL.mainDocumentUrl data_URL.finalDisplayedUrl
  match ge firstPartyUrl with
  | some e => (st2, some e)
  | none =>
      let r := makeUpAnEntity st2.synth firstPartyUrl
      ({ st2 with synth := r.2 }, r.1)

/-- The classification result returned by `compute_`
(entity-classification.js lines 125–130); the `isFirstParty` closure is
the separate definition below. -/
structure ClassificationResult where
  entityByUrl : List (String × Entity)
  urlsByEntity : List (Entity × List String)
  firstParty : Option Entity
deriving DecidableEq, Repr

/-- entity-classification.js lines 83–131: the value `compute_` returns. -/
def compute_ (ge : String → Option Entity) (data_URL : URLArtifact)
    (devtoolsLog : List LogEntry) (networkRecords : List NetworkRecord) :
    ClassificationResult :=
  let r := computeState ge data_URL devtoolsLog networkRecords
  ⟨r.1.entityByUrl, r.1.urlsByEntity, r.2⟩

/-- entity-classification.js lines 120–123, the `isFirstParty` closure:
`entityByUrl.get(url) === firstParty`, JS `===` on objects being
reference identity (both sides may also be undefined, embedded as
`none`). -/
def isFirstParty (r : ClassificationResult) (url : String) : Bool :=
  decide (alookup r.entityByUrl url = r.firstParty)

/-- Stated from the spec's words for comparison with the source: the
two-step lookup policy used both for records and for the first party —
known-entity reference first, synthesis through the synthesized-entity
cache only on a miss. -/
def twoStepEntityLookup (ge : String → Option Entity) (st : SynthState) (u : String) :
    Option Entity :=
  match ge u with
  | some e => some e
  | none => (makeUpAnEntity st u).1

/-- The inverse-index invariant of the two result maps: membership in an
entity's URL set is exactly classification to that entity, and every
recorded URL set is nonempty. -/
def InvIndex (st : ClassState) : Prop :=
  (∀ u e, u ∈ (alookup st.urlsByEntity e).getD [] ↔ alookup st.entityByUrl u = some e) ∧
  (∀ e s, alookup st.urlsByEntity e = some s → s ≠ [])

/-- Every classified URL got its entity either from the known-entity
reference or from the synthesized-entity cache under its canonical key. -/
def ResolvedTo (ge : String → Option Entity) (st : ClassState) : Prop :=
  ∀ u e, alookup st.entityByUrl u = some e →
    ge u = some e ∨ ∃ k, canonicalKey u = some k ∧ alookup st.synth.cache k = some e

/-- Every cached entity carrying the `isUnrecognized` flag has the shape
`makeUpAnEntity` gives its placeholders (in particular not the
extension-preload shape, whose `category` is "Chrome Extension" and whose
`homepage` is populated). -/
def SynthOnlyUnrecognized (c : List (String × Entity)) : Prop :=
  ∀ k e, alookup c k = some e → e.isUnrecognized = true →
    e.name = k ∧ e.company = k ∧ e.category = "" ∧ e.homepage = none ∧
      e.categories = [] ∧ e.averageExecutionTime = 0 ∧ e.totalExecutionTime = 0 ∧
      e.totalOccurrences = 0

/-- Modelled from the spec: the outcome a computed-artifact producer
settles with — a result value or a cached failure (computed-artifact.js
is not part of the excerpt; §4.1 of the spec describes its contract). -/
inductive COutcome where
  | success (value : Nat)
  | failure (code : Nat)
deriving DecidableEq, Repr

/-- Modelled from the spec: a dependency-cache slot — the in-flight
single-flight placeholder stored by the first caller, or the settled
outcome that replaces it. -/
inductive CacheSlot where
  | pending
  | settled (outcome : COutcome)
deriving DecidableEq, Repr

/-- Modelled from the spec: the run-scoped dependency cache keyed by
(artifact identity, input fingerprint), instrumented with a counter of
producer invocations. -/
structure WrapperState where
  cache : List (String × CacheSlot)
  producerRuns : Nat
deriving DecidableEq, Repr

/-- Modelled from the spec: the events of the single logical thread of a
run that concern the wrapper — a caller requesting a key, and a producer
completing a key with its outcome. -/
inductive WEvent where
  | request (key : String)
  | complete (key : String) (outcome : COutcome)
deriving DecidableEq, Repr

/-- The key an event concerns. -/
def eventKey : WEvent → String
  | .request k => k
  | .complete k _ => k

/-- Modelled from the spec: one cooperative step of the wrapper.  A
request for a cached key (pending or settled) attaches to the existing
slot without invoking the producer; a request for an unseen key stores
the pending placeholder and invokes the producer (counted).  A
completion settles a pending slot with its outcome; a completion for a
settled or unseen key changes nothing (the first settlement is
terminal for the run). -/
def wstep (st : WrapperState) (ev : WEvent) : WrapperState :=
  match ev with
  | .request k =>
      match alookup st.cache k with
      | some _ => st
      | none => ⟨aset st.cache k CacheSlot.pending, st.producerRuns + 1⟩
  | .complete k o =>
      match alookup st.cache k with
      | some CacheSlot.pending => ⟨aset st.cache k (CacheSlot.settled o), st.producerRuns⟩
      | _ => st

/-- Modelled from the spec: a run of the wrapper from the empty
run-scoped cache over a sequence of cooperative events. -/
def wrun (evs : List WEvent) : WrapperState :=
  evs.foldl wstep ⟨[], 0⟩

/-- The outcome a caller of the given key observes once it is settled. -/
def observedOutcome (st : WrapperState) (k : String) : Option COutcome :=
  match alookup st.cache k with
  | some (CacheSlot.settled o) => some o
  | _ => none

/-- A known-entity reference that recognises nothing (fixture). -/
def geNone : String → Option Entity := fun _ => none

/-- Page-URL fixture with no main-document URL. -/
def dataFx : URLArtifact := ⟨none, "https://fp.example.org/"⟩

/-- The entity the reference fixture `geC1` serves for
`https://a.example.com/x` (fixture for the C1 counterexample; its `eid`
is distinct from every allocation the run performs). -/
def refEntC1 : Entity :=
  { name := "Example CDN"
    company := "Example"
    category := "CDN"
    categories := ["cdn"]
    domains := ["a.example.com"]
    averageExecutionTime := 0
    totalExecutionTime := 0
    totalOccurrences := 0
    eid := 1000 }

/-- A known-entity reference that recognises exactly
`https://a.example.com/x` (fixture). -/
def geC1 : String → Option Entity :=
  fun u => if u = "https://a.example.com/x" then some refEntC1 else none

/-- Two records sharing the root domain `example.com` (fixture). -/
def recsAB : List NetworkRecord :=
  [⟨"https://a.example.com/x"⟩, ⟨"https://b.example.com/y"⟩]

/-- The placeholder entity the run of `geNone`/`recsAB` synthesizes for
`example.com` (fixture; first allocation of the run, hence `eid = 0`). -/
def entW1 : Entity :=
  { name := "example.com"
    company := "example.com"
    category := ""
    categories := []
    domains := ["example.com"]
    averageExecutionTime := 0
    totalExecutionTime := 0
    totalOccurrences := 0
    isUnrecognized := true
    eid := 0 }

/-- The devtools log of the spec's extension-precedence example
(fixture). -/
def logC3 : List LogEntry :=
  [⟨"Runtime.executionContextCreated", "chrome-extension://abc123", "My Ext"⟩]

/-- Single-flight event-trace fixture: three concurrent requests for one
key around its producer's completion. -/
def evsC9 : List WEvent :=
  [WEvent.request "EC|log1", WEvent.request "EC|log1",
   WEvent.complete "EC|log1" (COutcome.success 7), WEvent.request "EC|log1"]

/-- Page-URL fixture whose first-party URL cannot be classified. -/
def dataBad : URLArtifact := ⟨none, "nota url"⟩

/-! Basic lemmas about the embedded map and set operations. -/

theorem alookup_aset {α β : Type} [DecidableEq α] (m : List (α × β)) (key k : α) (v : β) :
    alookup (aset m key v) k = if key = k then some v else alookup m k := by
  induction m with
  | nil => by_cases h : key = k <;> simp [aset, alookup, h]
  | cons hd tl ih =>
      obtain ⟨k0, v0⟩ := hd
      by_cases h1 : k0 = key
      · subst h1
        by_cases h2 : k0 = k <;> simp [aset, alookup, h2]
      · by_cases h2 : key = k
        · subst h2
          simp [aset, alookup, h1, ih]
        · simp [aset, alookup, h1, h2, ih]

theorem alookup_aset_self {α β : Type} [DecidableEq α] (m : List (α × β)) (key : α) (v : β) :
    alookup (aset m key v) key = some v := by
  simp [alookup_aset]

theorem alookup_aset_ne {α β : Type} [DecidableEq α] (m : List (α × β)) (key k : α) (v : β)
    (h : key ≠ k) : alookup (aset m key v) k = alookup m k := by
  simp [alookup_aset, h]

theorem mem_setAdd_iff (s : List String) (u v : String) :
    v ∈ setAdd s u ↔ v ∈ s ∨ v = u := by
  unfold setAdd
  by_cases h : u ∈ s
  · simp only [if_pos h]
    constructor
    · exact fun hv => Or.inl hv
    · rintro (hv | rfl)
      · exact hv
      · exact h
  · simp [if_neg h]

theorem setAdd_ne_nil (s : List String) (u : String) : setAdd s u ≠ [] := by
  intro hcon
  have : u ∈ setAdd s u := by
    rw [mem_setAdd_iff]
    exact Or.inr rfl
  rw [hcon] at this
  exact (List.not_mem_nil u) this

theorem foldl_preserve {σ α : Type} (P : σ → Prop) (f : σ → α → σ)
    (h : ∀ s a, P s → P (f s a)) :
    ∀ (l : List α) (s : σ), P s → P (l.foldl f s) := by
  intro l
  induction l with
  | nil => intro s hs; exact hs
  | cons a l ih => intro s hs; exact ih (f s a) (h s a hs)

/-! Characterization of `makeUpAnEntity`. -/

theorem makeUp_no_key (st : SynthState) (url : String) (h : canonicalKey url = none) :
    makeUpAnEntity st url = (none, st) := by
  unfold makeUpAnEntity
  rw [h]


theorem makeUp_cached (st : SynthState) (url k : String) (e : Entity)
    (hk : canonicalKey url = some k) (hc : alookup st.cache k = some e) :
    makeUpAnEntity st url = (some e, st) := by
  simp [makeUpAnEntity, hk, hc]

theorem makeUp_fresh (st : SynthState) (url k : String)
    (hk : canonicalKey url = some k) (hc : alookup st.cache k = none) :
    makeUpAnEntity st url =
      (some (freshEntity k url st.nextId),
       ⟨aset st.cache k (freshEntity k url st.nextId), st.nextId + 1⟩) := by
  simp [makeUpAnEntity, hk, hc, freshEntity]

theorem makeUp_cache_stable (st : SynthState) (url k : String) (e : Entity)
    (h : alookup st.cache k = some e) :
    alookup (makeUpAnEntity st url).2.cache k = some e := by
  cases hck : canonicalKey url with
  | none => simp [makeUpAnEntity, hck, h]
  | some key =>
      cases hc : alookup st.cache key with
      | some e0 => simp [makeUpAnEntity, hck, hc, h]
      | none =>
          have hkk : key ≠ k := by
            intro he
            rw [he, h] at hc
            cases hc
          simp [makeUpAnEntity, hck, hc, alookup_aset, hkk, h]

theorem makeUp_some_spec (st : SynthState) (url : String) (e : Entity)
    (h : (makeUpAnEntity st url).1 = some e) :
    ∃ k, canonicalKey url = some k ∧ alookup (makeUpAnEntity st url).2.cache k = some e := by
  cases hck : canonicalKey url with
  | none => simp [makeUpAnEntity, hck] at h
  | some key =>
      refine ⟨key, rfl, ?_⟩
      cases hc : alookup st.cache key with
      | some e0 =>
          simp only [makeUpAnEntity, hck, hc] at h ⊢
          exact h
      | none =>
          simp only [makeUpAnEntity, hck, hc] at h ⊢
          rw [alookup_aset_self]
          exact h

/-! Step lemmas for the record-classification loop. -/

theorem addClassified_synth (st : ClassState) (ent : Entity) (url : String) :
    (addClassified st ent url).synth = st.synth := rfl

theorem addClassified_ebu (st : ClassState) (ent : Entity) (url u : String) :
    alookup (addClassified st ent url).entityByUrl u
      = if url = u then some ent else alookup st.entityByUrl u := by
  simp [addClassified, alookup_aset]

theorem classify_ebu_stable (ge : String → Option Entity) (st : ClassState)
    (r : NetworkRecord) (u : String) (e : Entity)
    (h : alookup st.entityByUrl u = some e) :
    alookup (classifyRecord ge st r).entityByUrl u = some e := by
  by_cases hcase : (alookup st.entityByUrl r.url).isSome
  · simp [classifyRecord, hcase, h]
  · have hne : r.url ≠ u := by
      intro he
      rw [he, h] at hcase
      exact hcase rfl
    cases hge : ge r.url with
    | some ent => simp [classifyRecord, hcase, hge, addClassified_ebu, hne, h]
    | none =>
        cases hmk : makeUpAnEntity st.synth r.url with
        | mk o s2 =>
            cases o with
            | none => simp [classifyRecord, hcase, hge, hmk, h]
            | some ent =>
                simp [classifyRecord, hcase, hge, hmk, addClassified_ebu, hne, h]

theorem classify_cache_stable (ge : String → Option Entity) (st : ClassState)
    (r : NetworkRecord) (k : String) (e : Entity)
    (h : alookup st.synth.cache k = some e) :
    alookup (classifyRecord ge st r).synth.cache k = some e := by
  by_cases hcase : (alookup st.entityByUrl r.url).isSome
  · simp [classifyRecord, hcase, h]
  · cases hge : ge r.url with
    | some ent => simp [classifyRecord, hcase, hge, addClassified_synth, h]
    | none =>
        have hs := makeUp_cache_stable st.synth r.url k e h
        cases hmk : makeUpAnEntity st.synth r.url with
        | mk o s2 =>
            rw [hmk] at hs
            cases o with
            | none => simp [classifyRecord, hcase, hge, hmk, hs]
            | some ent => simp [classifyRecord, hcase, hge, hmk, addClassified_synth, hs]

theorem classify_other_ebu (ge : String → Option Entity) (st : ClassState)
    (r : NetworkRecord) (u : String) (hne : r.url ≠ u) :
    alookup (classifyRecord ge st r).entityByUrl u = alookup st.entityByUrl u := by
  by_cases hcase : (alookup st.entityByUrl r.url).isSome
  · simp [classifyRecord, hcase]
  · cases hge : ge r.url with
    | some ent => simp [classifyRecord, hcase, hge, addClassified_ebu, hne]
    | none =>
        cases hmk : makeUpAnEntity st.synth r.url with
        | mk o s2 =>
            cases o with
            | none => simp [classifyRecord, hcase, hge, hmk]
            | some ent => simp [classifyRecord, hcase, hge, hmk, addClassified_ebu, hne]

theorem classify_bad_noop (ge : String → Option Entity) (st : ClassState)
    (r : NetworkRecord) (hk : canonicalKey r.url = none) (hge : ge r.url = none) :
    classifyRecord ge st r = st := by
  by_cases hcase : (alookup st.entityByUrl r.url).isSome
  · simp [classifyRecord, hcase]
  · simp [classifyRecord, hcase, hge, makeUp_no_key st.synth r.url hk]

theorem makeUp_none_snd (st : SynthState) (url : String)
    (h : (makeUpAnEntity st url).1 = none) : (makeUpAnEntity st url).2 = st := by
  cases hck : canonicalKey url with
  | none => simp [makeUpAnEntity, hck]
  | some key =>
      cases hc : alookup st.cache key with
      | some e0 => simp [makeUpAnEntity, hck, hc]
      | none => simp [makeUpAnEntity, hck, hc] at h

/-! Preservation of the inverse-index invariant. -/

theorem InvIndex_addClassified (st : ClassState) (ent : Entity) (url : String)
    (hnone : alookup st.entityByUrl url = none) (hinv : InvIndex st) :
    InvIndex (addClassified st ent url) := by
  obtain ⟨h1, h2⟩ := hinv
  constructor
  · intro u e
    simp only [addClassified, alookup_aset, Option.getD_some]
    by_cases he : ent = e
    · subst he
      by_cases hu : url = u
      · subst hu
        simp only [if_pos rfl, Option.getD_some]
        constructor
        · intro _; rfl
        · intro _
          exact (mem_setAdd_iff _ _ _).mpr (Or.inr rfl)
      · simp only [if_pos rfl, if_true, if_neg hu, Option.getD_some]
        rw [mem_setAdd_iff]
        constructor
        · rintro (hin | rfl)
          · exact (h1 u ent).mp hin
          · exact absurd rfl hu
        · intro hb
          exact Or.inl ((h1 u ent).mpr hb)
    · by_cases hu : url = u
      · subst hu
        simp only [if_neg he, if_pos rfl]
        constructor
        · intro hin
          have := (h1 url e).mp hin
          rw [hnone] at this
          cases this
        · intro hsome
          have : ent = e := Option.some_inj.mp hsome
          exact absurd this he
      · simp only [if_neg he, if_neg hu]
        exact h1 u e
  · intro e s hs
    simp only [addClassified, alookup_aset] at hs
    by_cases he : ent = e
    · rw [if_pos he] at hs
      have := Option.some_inj.mp hs
      rw [← this]
      exact setAdd_ne_nil _ _
    · rw [if_neg he] at hs
      exact h2 e s hs

theorem InvIndex_classify (ge : String → Option Entity) (st : ClassState) (r : NetworkRecord)
    (hinv : InvIndex st) : InvIndex (classifyRecord ge st r) := by
  by_cases hcase : (alookup st.entityByUrl r.url).isSome
  · simpa [classifyRecord, hcase] using hinv
  · have hnone : alookup st.entityByUrl r.url = none := by
      cases hl : alookup st.entityByUrl r.url with
      | none => rfl
      | some e0 => rw [hl] at hcase; exact absurd rfl hcase
    cases hge : ge r.url with
    | some ent =>
        simpa [classifyRecord, hcase, hge] using InvIndex_addClassified st ent r.url hnone hinv
    | none =>
        cases hmk : makeUpAnEntity st.synth r.url with
        | mk o s2 =>
            cases o with
            | none =>
                simp only [classifyRecord, hcase, hge, hmk]
                simpa using hinv
            | some ent =>
                have hstep : InvIndex (addClassified { st with synth := s2 } ent r.url) :=
                  InvIndex_addClassified { st with synth := s2 } ent r.url hnone hinv
                simpa [classifyRecord, hcase, hge, hmk] using hstep

/-! Preservation of the resolution invariant. -/

theorem ResolvedTo_classify (ge : String → Option Entity) (st : ClassState) (r : NetworkRecord)
    (hres : ResolvedTo ge st) : ResolvedTo ge (classifyRecord ge st r) := by
  by_cases hcase : (alookup st.entityByUrl r.url).isSome
  · simpa [classifyRecord, hcase] using hres
  · cases hge : ge r.url with
    | some ent =>
        intro u e h
        simp only [classifyRecord, hcase, hge] at h ⊢
        simp only [Bool.false_eq_true, if_false] at h ⊢
        rw [addClassified_ebu] at h
        by_cases hu : r.url = u
        · subst hu
          rw [if_pos rfl] at h
          exact Or.inl (hge.trans h)
        · rw [if_neg hu] at h
          rcases hres u e h with hl | ⟨k, hk, hc⟩
          · exact Or.inl hl
          · exact Or.inr ⟨k, hk, hc⟩
    | none =>
        cases hmk : makeUpAnEntity st.synth r.url with
        | mk o s2 =>
            cases o with
            | none =>
                have hs2 : s2 = st.synth := by
                  have := makeUp_none_snd st.synth r.url (by rw [hmk])
                  rw [hmk] at this
                  exact this
                intro u e h
                simp only [classifyRecord, hcase, hge, hmk] at h ⊢
                simp only [Bool.false_eq_true, if_false] at h ⊢
                rw [hs2]
                exact hres u e h
            | some ent =>
                intro u e h
                simp only [classifyRecord, hcase, hge, hmk] at h ⊢
                simp only [Bool.false_eq_true, if_false] at h ⊢
                rw [addClassified_ebu] at h
                by_cases hu : r.url = u
                · subst hu
                  rw [if_pos rfl] at h
                  obtain ⟨k, hk, hc⟩ := makeUp_some_spec st.synth r.url ent (by rw [hmk])
                  rw [hmk] at hc
                  refine Or.inr ⟨k, hk, ?_⟩
                  rw [← Option.some_inj.mp h]
                  exact hc
                · rw [if_neg hu] at h
                  rcases hres u e h with hl | ⟨k, hk, hc⟩
                  · exact Or.inl hl
                  · refine Or.inr ⟨k, hk, ?_⟩
                    have := makeUp_cache_stable st.synth r.url k e hc
                    rw [hmk] at this
                    exact this

/-! Preservation of the unrecognized-entity shape invariant, and the
preload lemmas. -/

theorem SynthOnly_makeUp (st : SynthState) (url : String)
    (hs : SynthOnlyUnrecognized st.cache) :
    SynthOnlyUnrecognized (makeUpAnEntity st url).2.cache := by
  cases hck : canonicalKey url with
  | none => simpa [makeUpAnEntity, hck] using hs
  | some key =>
      cases hc : alookup st.cache key with
      | some e0 => simpa [makeUpAnEntity, hck, hc] using hs
      | none =>
          simp only [makeUpAnEntity, hck, hc]
          intro k e h htrue
          rw [alookup_aset] at h
          by_cases hkk : key = k
          · subst hkk
            rw [if_pos rfl] at h
            have he := Option.some_inj.mp h
            subst he
            exact ⟨rfl, rfl, rfl, rfl, rfl, rfl, rfl, rfl⟩
          · rw [if_neg hkk] at h
            exact hs k e h htrue


theorem preloadOne_alookup (st : SynthState) (entry : LogEntry) (k : String) :
    alookup (preloadOne st entry).cache k
      = if entry.method = "Runtime.executionContextCreated"
            ∧ listStartsWith entry.origin.toList "chrome-extension:".toList = true
            ∧ alookup st.cache entry.origin = none
            ∧ entry.origin = k
        then some (preloadEntity entry st.nextId)
        else alookup st.cache k := by
  by_cases h1 : entry.method = "Runtime.executionContextCreated"
  · by_cases h2 : listStartsWith entry.origin.toList "chrome-extension:".toList = true
    · by_cases h3 : alookup st.cache entry.origin = none
      · have hset : preloadOne st entry =
            ⟨aset st.cache entry.origin (preloadEntity entry st.nextId), st.nextId + 1⟩ := by
          rw [preloadOne]
          rw [if_neg (by simp [h1])]
          rw [if_neg (by rw [h2]; simp)]
          rw [if_neg (by rw [h3]; simp)]
          rfl
        rw [hset]
        by_cases h4 : entry.origin = k
        · rw [if_pos ⟨h1, h2, h3, h4⟩]
          rw [← h4]
          exact alookup_aset_self _ _ _
        · rw [if_neg (fun hc => h4 hc.2.2.2)]
          exact alookup_aset_ne _ _ _ _ h4
      · have hsome : (alookup st.cache entry.origin).isSome = true :=
          Option.ne_none_iff_isSome.mp h3
        rw [preloadOne]
        rw [if_neg (by simp [h1])]
        rw [if_neg (by rw [h2]; simp)]
        rw [if_pos hsome]
        rw [if_neg (fun hc => h3 hc.2.2.1)]
    · have h2f : listStartsWith entry.origin.toList "chrome-extension:".toList = false :=
        Bool.eq_false_iff.mpr h2
      rw [preloadOne]
      rw [if_neg (by simp [h1])]
      rw [if_pos (by rw [h2f]; rfl)]
      rw [if_neg (fun hc => h2 hc.2.1)]
  · rw [preloadOne]
    rw [if_pos h1]
    rw [if_neg (fun hc => h1 hc.1)]

theorem SynthOnly_preloadOne (st : SynthState) (entry : LogEntry)
    (hs : SynthOnlyUnrecognized st.cache) :
    SynthOnlyUnrecognized (preloadOne st entry).cache := by
  intro k e h htrue
  rw [preloadOne_alookup] at h
  split at h
  · have he := Option.some_inj.mp h
    rw [← he] at htrue
    simp [preloadEntity] at htrue
  · exact hs k e h htrue

theorem preloadOne_cache_stable (st : SynthState) (entry : LogEntry) (k : String) (e : Entity)
    (h : alookup st.cache k = some e) :
    alookup (preloadOne st entry).cache k = some e := by
  rw [preloadOne_alookup]
  split
  · rename_i hcond
    obtain ⟨hm, hsw, hnone, horig⟩ := hcond
    rw [horig, h] at hnone
    cases hnone
  · exact h

theorem preload_hit (log : List LogEntry) (st : SynthState) (o : String) (en : LogEntry)
    (ho : listStartsWith o.toList "chrome-extension:".toList = true)
    (hnone : alookup st.cache o = none)
    (hfind : log.find?
        (fun x => x.method == "Runtime.executionContextCreated" && x.origin == o) = some en) :
    ∃ e0, alookup (preloadChromeExtensionsToCache_ st log).cache o = some e0 ∧
      e0.name = en.name ∧ e0.company = en.name ∧ e0.category = "Chrome Extension" ∧
      e0.isUnrecognized = false ∧
      e0.homepage = some ("https://chromewebstore.google.com/detail/"
        ++ String.mk (hostChars o.toList)) := by
  induction log generalizing st with
  | nil => cases hfind
  | cons hd tl ih =>
      by_cases hp : (hd.method == "Runtime.executionContextCreated" && hd.origin == o) = true
      · have hen : hd = en := by
          rw [List.find?_cons_of_pos
            (p := fun x : LogEntry => x.method == "Runtime.executionContextCreated"
              && x.origin == o)
            _ hp] at hfind
          exact Option.some_inj.mp hfind
        have hmethod : hd.method = "Runtime.executionContextCreated" :=
          beq_iff_eq.mp ((Bool.and_eq_true _ _).mp hp).1
        have horigin : hd.origin = o :=
          beq_iff_eq.mp ((Bool.and_eq_true _ _).mp hp).2
        have hlook : alookup (preloadOne st hd).cache o
            = some (preloadEntity hd st.nextId) := by
          rw [preloadOne_alookup]
          rw [if_pos ⟨hmethod, by rw [horigin]; exact ho, by rw [horigin]; exact hnone, horigin⟩]
        refine ⟨preloadEntity hd st.nextId, ?_, ?_, ?_, ?_, ?_, ?_⟩
        · show alookup (List.foldl preloadOne (preloadOne st hd) tl).cache o = _
          exact foldl_preserve
            (fun s => alookup s.cache o = some (preloadEntity hd st.nextId)) preloadOne
            (fun s a hs => preloadOne_cache_stable s a o _ hs) tl (preloadOne st hd) hlook
        · rw [← hen]; rfl
        · rw [← hen]; rfl
        · rfl
        · rfl
        · simp [preloadEntity, horigin]
      · have hfind2 : tl.find?
            (fun x => x.method == "Runtime.executionContextCreated" && x.origin == o)
              = some en := by
          rw [List.find?_cons_of_neg
            (p := fun x : LogEntry => x.method == "Runtime.executionContextCreated"
              && x.origin == o)
            _ hp] at hfind
          exact hfind
        have hkeep : alookup (preloadOne st hd).cache o = none := by
          rw [preloadOne_alookup]
          split
          · rename_i hcond
            exfalso
            apply hp
            rw [Bool.and_eq_true]
            exact ⟨beq_iff_eq.mpr hcond.1, beq_iff_eq.mpr hcond.2.2.2⟩
          · exact hnone
        exact ih (preloadOne st hd) hkeep hfind2

theorem SynthOnly_classify (ge : String → Option Entity) (st : ClassState) (r : NetworkRecord)
    (hs : SynthOnlyUnrecognized st.synth.cache) :
    SynthOnlyUnrecognized (classifyRecord ge st r).synth.cache := by
  by_cases hcase : (alookup st.entityByUrl r.url).isSome
  · simpa [classifyRecord, hcase] using hs
  · cases hge : ge r.url with
    | some ent => simpa [classifyRecord, hcase, hge, addClassified_synth] using hs
    | none =>
        have hs2 := SynthOnly_makeUp st.synth r.url hs
        cases hmk : makeUpAnEntity st.synth r.url with
        | mk o s2 =>
            rw [hmk] at hs2
            cases o with
            | none => simpa [classifyRecord, hcase, hge, hmk] using hs2
            | some ent =>
                simpa [classifyRecord, hcase, hge, hmk, addClassified_synth] using hs2

/-! The invariants carried to the final states of a run. -/

theorem InvIndex_initial (log : List LogEntry) : InvIndex (initialState log) := by
  constructor
  · intro u e
    simp [initialState, alookup]
  · intro e s hs
    simp [initialState, alookup] at hs

theorem InvIndex_records (ge : String → Option Entity) (log : List LogEntry)
    (rs : List NetworkRecord) : InvIndex (recordsState ge log rs) := by
  unfold recordsState
  exact foldl_preserve InvIndex (classifyRecord ge)
    (fun s a h => InvIndex_classify ge s a h) rs (initialState log) (InvIndex_initial log)

theorem ResolvedTo_records (ge : String → Option Entity) (log : List LogEntry)
    (rs : List NetworkRecord) : ResolvedTo ge (recordsState ge log rs) := by
  unfold recordsState
  refine foldl_preserve (ResolvedTo ge) (classifyRecord ge)
    (fun s a h => ResolvedTo_classify ge s a h) rs (initialState log) ?_
  intro u e h
  simp [initialState, alookup] at h

theorem SynthOnly_initial (log : List LogEntry) :
    SynthOnlyUnrecognized (initialState log).synth.cache := by
  show SynthOnlyUnrecognized (preloadChromeExtensionsToCache_ ⟨[], 0⟩ log).cache
  unfold preloadChromeExtensionsToCache_
  refine foldl_preserve (fun s : SynthState => SynthOnlyUnrecognized s.cache) preloadOne
    (fun s a h => SynthOnly_preloadOne s a h) log ⟨[], 0⟩ ?_
  intro k e h ht
  simp [alookup] at h

theorem SynthOnly_records (ge : String → Option Entity) (log : List LogEntry)
    (rs : List NetworkRecord) :
    SynthOnlyUnrecognized (recordsState ge log rs).synth.cache := by
  unfold recordsState
  exact foldl_preserve (fun s : ClassState => SynthOnlyUnrecognized s.synth.cache)
    (classifyRecord ge) (fun s a h => SynthOnly_classify ge s a h) rs (initialState log)
    (SynthOnly_initial log)

theorem compute_entityByUrl (ge : String → Option Entity) (d : URLArtifact)
    (log : List LogEntry) (rs : List NetworkRecord) :
    (compute_ ge d log rs).entityByUrl = (recordsState ge log rs).entityByUrl := by
  simp only [compute_, computeState]
  split <;> rfl

theorem compute_urlsByEntity (ge : String → Option Entity) (d : URLArtifact)
    (log : List LogEntry) (rs : List NetworkRecord) :
    (compute_ ge d log rs).urlsByEntity = (recordsState ge log rs).urlsByEntity := by
  simp only [compute_, computeState]
  split <;> rfl

theorem compute_firstParty (ge : String → Option Entity) (d : URLArtifact)
    (log : List LogEntry) (rs : List NetworkRecord) :
    (compute_ ge d log rs).firstParty = (computeState ge d log rs).2 := rfl

theorem computeState_cache_stable (ge : String → Option Entity) (d : URLArtifact)
    (log : List LogEntry) (rs : List NetworkRecord) (k : String) (e : Entity)
    (h : alookup (recordsState ge log rs).synth.cache k = some e) :
    alookup (computeState ge d log rs).1.synth.cache k = some e := by
  simp only [computeState]
  cases hge : ge (jsOrString d.mainDocumentUrl d.finalDisplayedUrl) with
  | some e0 => simpa using h
  | none =>
      simp only []
      exact makeUp_cache_stable _ _ k e h

theorem resolved_compute (ge : String → Option Entity) (d : URLArtifact)
    (log : List LogEntry) (rs : List NetworkRecord) (u : String) (e : Entity)
    (h : alookup (compute_ ge d log rs).entityByUrl u = some e) :
    ge u = some e ∨ ∃ k, canonicalKey u = some k ∧
      alookup (recordsState ge log rs).synth.cache k = some e := by
  rw [compute_entityByUrl] at h
  exact ResolvedTo_records ge log rs u e h

theorem classify_keeps_none (ge : String → Option Entity) (st : ClassState)
    (r : NetworkRecord) (u : String) (hk : canonicalKey u = none) (hge : ge u = none)
    (h : alookup st.entityByUrl u = none) :
    alookup (classifyRecord ge st r).entityByUrl u = none := by
  by_cases hr : r.url = u
  · subst hr
    rw [classify_bad_noop ge st r hk hge]
    exact h
  · rw [classify_other_ebu ge st r u hr]
    exact h

theorem records_keeps_none (ge : String → Option Entity) (log : List LogEntry)
    (rs : List NetworkRecord) (u : String)
    (hk : canonicalKey u = none) (hge : ge u = none) :
    alookup (recordsState ge log rs).entityByUrl u = none := by
  unfold recordsState
  refine foldl_preserve (fun st : ClassState => alookup st.entityByUrl u = none)
    (classifyRecord ge) (fun s a h => classify_keeps_none ge s a u hk hge h) rs
    (initialState log) ?_
  simp [initialState, alookup]

/-! The claims. -/

/-- C1 (amended): for every classification run and every pair of request
URLs that both appear in `entityByUrl`, share the same canonical key
(root domain for web URLs, extension origin for chrome-extension URLs),
and are matched by the known-entity reference for neither of them, the
two URLs map to the very same Entity value (reference-identical, i.e.
the same allocation).  The restriction to reference misses is forced by
the counterexample below: when the opaque known-entity reference matches
one URL of the pair and not the other, the matched URL gets the
reference entity while the other gets a synthesized one. -/
theorem C1_same_key_same_entity (ge : String → Option Entity) (data_URL : URLArtifact)
    (devtoolsLog : List LogEntry) (networkRecords : List NetworkRecord)
    (url1 url2 k : String) (e1 e2 : Entity)
    (hge1 : ge url1 = none) (hge2 : ge url2 = none)
    (hk1 : canonicalKey url1 = some k) (hk2 : canonicalKey url2 = some k)
    (h1 : alookup (compute_ ge data_URL devtoolsLog networkRecords).entityByUrl url1 = some e1)
    (h2 : alookup (compute_ ge data_URL devtoolsLog networkRecords).entityByUrl url2 = some e2) :
    e1 = e2 := by
  rcases resolved_compute ge data_URL devtoolsLog networkRecords url1 e1 h1 with
    hl | ⟨k1, hk1', hc1⟩
  · rw [hge1] at hl; cases hl
  · rcases resolved_compute ge data_URL devtoolsLog networkRecords url2 e2 h2 with
      hl | ⟨k2, hk2', hc2⟩
    · rw [hge2] at hl; cases hl
    · have hkk1 : k1 = k := by
        rw [hk1] at hk1'
        exact (Option.some_inj.mp hk1').symm
      have hkk2 : k2 = k := by
        rw [hk2] at hk2'
        exact (Option.some_inj.mp hk2').symm
      rw [hkk1] at hc1
      rw [hkk2] at hc2
      rw [hc1] at hc2
      exact Option.some_inj.mp hc2

/-- C1 (counterexample to the claim as stated): with a known-entity
reference that recognises `https://a.example.com/x` but not
`https://b.example.com/y`, both URLs are classified and share the
canonical key `example.com`, yet their entities differ — the identity
invariant does not extend across the reference/synthesis boundary. -/
theorem C1_counterexample :
    canonicalKey "https://a.example.com/x" = some "example.com" ∧
    canonicalKey "https://b.example.com/y" = some "example.com" ∧
    (alookup (compute_ geC1 dataFx [] recsAB).entityByUrl
      "https://a.example.com/x").isSome = true ∧
    (alookup (compute_ geC1 dataFx [] recsAB).entityByUrl
      "https://b.example.com/y").isSome = true ∧
    alookup (compute_ geC1 dataFx [] recsAB).entityByUrl "https://a.example.com/x" ≠
      alookup (compute_ geC1 dataFx [] recsAB).entityByUrl "https://b.example.com/y" :=
  ⟨by decide, by decide, by decide, by decide, by decide⟩

/-- C1 witness: a run in which the reference matches neither URL; the
amended theorem applies and both URLs carry the same synthesized
`example.com` entity. -/
theorem C1_witness :
    geNone "https://a.example.com/x" = none ∧
    canonicalKey "https://a.example.com/x" = some "example.com" ∧
    canonicalKey "https://b.example.com/y" = some "example.com" ∧
    alookup (compute_ geNone dataFx [] recsAB).entityByUrl "https://a.example.com/x"
      = some entW1 ∧
    alookup (compute_ geNone dataFx [] recsAB).entityByUrl "https://b.example.com/y"
      = some entW1 ∧
    entW1 = entW1 :=
  ⟨rfl, by decide, by decide, by decide, by decide,
    C1_same_key_same_entity geNone dataFx [] recsAB "https://a.example.com/x"
      "https://b.example.com/y" "example.com" entW1 entW1 rfl rfl (by decide) (by decide)
      (by decide) (by decide)⟩

/-- C2: `urlsByEntity` is exactly the inverse index of `entityByUrl`: a
URL belongs to an entity's set iff `entityByUrl` maps it to that entity,
and every set present in `urlsByEntity` is inhabited by a classified URL
(hence an entity that classifies no network-record URL — such as a
firstParty entity synthesized only from the page URL — has no set). -/
theorem C2_inverse_index (ge : String → Option Entity) (data_URL : URLArtifact)
    (devtoolsLog : List LogEntry) (networkRecords : List NetworkRecord) :
    (∀ u e,
      u ∈ (alookup (compute_ ge data_URL devtoolsLog networkRecords).urlsByEntity e).getD []
        ↔ alookup (compute_ ge data_URL devtoolsLog networkRecords).entityByUrl u = some e) ∧
    (∀ e s, alookup (compute_ ge data_URL devtoolsLog networkRecords).urlsByEntity e = some s →
      ∃ u, u ∈ s ∧
        alookup (compute_ ge data_URL devtoolsLog networkRecords).entityByUrl u = some e) := by
  have hinv := InvIndex_records ge devtoolsLog networkRecords
  constructor
  · intro u e
    rw [compute_urlsByEntity, compute_entityByUrl]
    exact hinv.1 u e
  · intro e s hs
    rw [compute_urlsByEntity] at hs
    have hne := hinv.2 e s hs
    cases s with
    | nil => exact absurd rfl hne
    | cons a t =>
        refine ⟨a, List.mem_cons_self a t, ?_⟩
        have hmem : a ∈ (alookup (recordsState ge devtoolsLog networkRecords).urlsByEntity
            e).getD [] := by
          rw [hs]
          exact List.mem_cons_self a t
        rw [compute_entityByUrl]
        exact (hinv.1 a e).mp hmem

/-- C2 witness: in the `geNone`/`recsAB` run the synthesized
`example.com` entity's set holds both record URLs and inverts
`entityByUrl`; the membership equivalence holds at a concrete URL. -/
theorem C2_witness :
    ("https://a.example.com/x" ∈ (alookup (compute_ geNone dataFx [] recsAB).urlsByEntity
        entW1).getD []
      ↔ alookup (compute_ geNone dataFx [] recsAB).entityByUrl "https://a.example.com/x"
        = some entW1) ∧
    (∃ u, u ∈ ["https://a.example.com/x", "https://b.example.com/y"] ∧
      alookup (compute_ geNone dataFx [] recsAB).entityByUrl u = some entW1) :=
  ⟨(C2_inverse_index geNone dataFx [] recsAB).1 "https://a.example.com/x" entW1,
   (C2_inverse_index geNone dataFx [] recsAB).2 entW1
     ["https://a.example.com/x", "https://b.example.com/y"] (by decide)⟩

/-- C4: classification processes network records in the supplied order
and the first classification for a URL wins: once a URL is mapped in
`entityByUrl`, appending any further records (in particular later
duplicates of the same URL) leaves its entry unchanged, so the result is
deterministic given the record order. -/
theorem C4_first_classification_wins (ge : String → Option Entity) (data_URL : URLArtifact)
    (devtoolsLog : List LogEntry) (rs rs2 : List NetworkRecord) (u : String) (e : Entity)
    (h : alookup (compute_ ge data_URL devtoolsLog rs).entityByUrl u = some e) :
    alookup (compute_ ge data_URL devtoolsLog (rs ++ rs2)).entityByUrl u = some e := by
  rw [compute_entityByUrl] at h ⊢
  unfold recordsState at h ⊢
  rw [List.foldl_append]
  exact foldl_preserve (fun st : ClassState => alookup st.entityByUrl u = some e)
    (classifyRecord ge) (fun s a hp => classify_ebu_stable ge s a u e hp) rs2 _ h

/-- C4 witness: re-appending the same two records changes nothing about
the first URL's classification. -/
theorem C4_witness :
    alookup (compute_ geNone dataFx [] recsAB).entityByUrl "https://a.example.com/x"
      = some entW1 ∧
    alookup (compute_ geNone dataFx [] (recsAB ++ recsAB)).entityByUrl
      "https://a.example.com/x" = some entW1 :=
  ⟨by decide,
   C4_first_classification_wins geNone dataFx [] recsAB recsAB "https://a.example.com/x"
     entW1 (by decide)⟩

/-- C7: a fresh synthesis (no reference match, canonical key not in the
cache) yields an entity with `name` and `company` equal to the key,
`domains` equal to `[rootDomain]` for web URLs and `[]` for extension
URLs, `isUnrecognized = true`, empty `category`/`categories`, zeroed
counters, and the entity is inserted into the cache under the key. -/
theorem C7_fresh_synthesized_entity (st : SynthState) (url k : String)
    (hk : canonicalKey url = some k) (hmiss : alookup st.cache k = none) :
    ∃ e, makeUpAnEntity st url = (some e, ⟨aset st.cache k e, st.nextId + 1⟩) ∧
      e.name = k ∧ e.company = k ∧
      e.domains = (if isChromeExtensionUrl url then [] else [k]) ∧
      e.isUnrecognized = true ∧ e.category = "" ∧ e.categories = [] ∧ e.homepage = none ∧
      e.averageExecutionTime = 0 ∧ e.totalExecutionTime = 0 ∧ e.totalOccurrences = 0 ∧
      alookup (aset st.cache k e) k = some e :=
  ⟨freshEntity k url st.nextId, makeUp_fresh st url k hk hmiss,
    rfl, rfl, rfl, rfl, rfl, rfl, rfl, rfl, rfl, rfl,
    alookup_aset_self _ _ _⟩

/-- C7 witness: synthesizing `example.com` from an empty cache. -/
theorem C7_witness :
    canonicalKey "https://a.example.com/x" = some "example.com" ∧
    ∃ e, makeUpAnEntity ⟨[], 0⟩ "https://a.example.com/x"
        = (some e, ⟨aset (SynthState.mk [] 0).cache "example.com" e,
            (SynthState.mk [] 0).nextId + 1⟩) ∧
      e.name = "example.com" ∧ e.company = "example.com" ∧
      e.domains = (if isChromeExtensionUrl "https://a.example.com/x" then []
        else ["example.com"]) ∧
      e.isUnrecognized = true ∧ e.category = "" ∧ e.categories = [] ∧ e.homepage = none ∧
      e.averageExecutionTime = 0 ∧ e.totalExecutionTime = 0 ∧ e.totalOccurrences = 0 ∧
      alookup (aset (SynthState.mk [] 0).cache "example.com" e) "example.com" = some e :=
  ⟨by decide,
   C7_fresh_synthesized_entity ⟨[], 0⟩ "https://a.example.com/x" "example.com"
     (by decide) (by decide)⟩

/-- C10: when the page's first-party URL cannot be classified
(`firstParty` is absent), `isFirstParty` returns true for every URL
absent from `entityByUrl`, because the predicate compares the two
absent values by identity. -/
theorem C10_absent_first_party (ge : String → Option Entity) (data_URL : URLArtifact)
    (devtoolsLog : List LogEntry) (networkRecords : List NetworkRecord) (u : String)
    (hfp : (compute_ ge data_URL devtoolsLog networkRecords).firstParty = none)
    (hu : alookup (compute_ ge data_URL devtoolsLog networkRecords).entityByUrl u = none) :
    isFirstParty (compute_ ge data_URL devtoolsLog networkRecords) u = true := by
  unfold isFirstParty
  rw [hu, hfp]
  simp

/-- C10 witness: a run whose first-party URL is unclassifiable makes
`isFirstParty` hold of an unclassified URL. -/
theorem C10_witness :
    (compute_ geNone dataBad [] []).firstParty = none ∧
    alookup (compute_ geNone dataBad [] []).entityByUrl "https://a.example.com/x" = none ∧
    isFirstParty (compute_ geNone dataBad [] []) "https://a.example.com/x" = true :=
  ⟨by decide, by decide,
   C10_absent_first_party geNone dataBad [] [] "https://a.example.com/x"
     (by decide) (by decide)⟩

theorem foldl_preserve_mem {σ α : Type} (P : σ → Prop) (f : σ → α → σ) :
    ∀ (l : List α), (∀ a ∈ l, ∀ s, P s → P (f s a)) → ∀ s, P s → P (l.foldl f s) := by
  intro l
  induction l with
  | nil => intro _ s hs; exact hs
  | cons a t ih =>
      intro h s hs
      exact ih (fun b hb u hu => h b (List.mem_cons_of_mem a hb) u hu) (f s a)
        (h a (List.mem_cons_self a t) s hs)

theorem classify_ext_invariant (ge : String → Option Entity) (st : ClassState)
    (r : NetworkRecord) (u o : String) (e0 : Entity)
    (hge : ge u = none) (hk : canonicalKey u = some o)
    (hc : alookup st.synth.cache o = some e0)
    (hu : alookup st.entityByUrl u = none ∨ alookup st.entityByUrl u = some e0) :
    alookup (classifyRecord ge st r).synth.cache o = some e0 ∧
      (alookup (classifyRecord ge st r).entityByUrl u = none ∨
        alookup (classifyRecord ge st r).entityByUrl u = some e0) := by
  refine ⟨classify_cache_stable ge st r o e0 hc, ?_⟩
  by_cases hr : r.url = u
  · subst hr
    by_cases hcase : (alookup st.entityByUrl r.url).isSome
    · rcases hu with h | h
      · rw [h] at hcase
        simp at hcase
      · right
        simp [classifyRecord, hcase, h]
    · right
      have hmk := makeUp_cached st.synth r.url o e0 hk hc
      simp [classifyRecord, hcase, hge, hmk, addClassified_ebu]
  · rw [classify_other_ebu ge st r u hr]
    exact hu

theorem classify_at_u (ge : String → Option Entity) (st : ClassState) (u o : String)
    (e0 : Entity) (hge : ge u = none) (hk : canonicalKey u = some o)
    (hc : alookup st.synth.cache o = some e0)
    (hu : alookup st.entityByUrl u = none ∨ alookup st.entityByUrl u = some e0) :
    alookup (classifyRecord ge st (NetworkRecord.mk u)).entityByUrl u = some e0 := by
  by_cases hcase : (alookup st.entityByUrl u).isSome
  · rcases hu with h | h
    · rw [h] at hcase
      simp at hcase
    · simpa [classifyRecord, hcase] using h
  · have hmk := makeUp_cached st.synth u o e0 hk hc
    simp [classifyRecord, hcase, hge, hmk, addClassified_ebu]

/-- C3: when the raw protocol log contains a
`Runtime.executionContextCreated` event whose origin is a
chrome-extension origin (`en` being the first such event for that
origin), the known-entity reference does not match, and a network record
carries a URL with that extension origin as canonical key, that URL
resolves to the preloaded entity — category "Chrome Extension", name and
company equal to the context name, not flagged `isUnrecognized` — because
the preload of all extension origins completes before any record
classification begins. -/
theorem C3_extension_preload_precedence (ge : String → Option Entity) (data_URL : URLArtifact)
    (devtoolsLog : List LogEntry) (networkRecords : List NetworkRecord)
    (o u : String) (en : LogEntry)
    (ho : listStartsWith o.toList "chrome-extension:".toList = true)
    (hfind : devtoolsLog.find?
        (fun x => x.method == "Runtime.executionContextCreated" && x.origin == o) = some en)
    (hge : ge u = none) (hk : canonicalKey u = some o)
    (hmem : NetworkRecord.mk u ∈ networkRecords) :
    ∃ e0, alookup (compute_ ge data_URL devtoolsLog networkRecords).entityByUrl u = some e0 ∧
      e0.category = "Chrome Extension" ∧ e0.name = en.name ∧ e0.company = en.name ∧
      e0.isUnrecognized = false := by
  obtain ⟨e0, hc0, hname, hcomp, hcat, hunrec, hhome⟩ :=
    preload_hit devtoolsLog ⟨[], 0⟩ o en ho rfl hfind
  have hc0i : alookup (initialState devtoolsLog).synth.cache o = some e0 := hc0
  refine ⟨e0, ?_, hcat, hname, hcomp, hunrec⟩
  rw [compute_entityByUrl]
  obtain ⟨xs, ys, hsplit⟩ := List.append_of_mem hmem
  subst hsplit
  unfold recordsState
  rw [List.foldl_append, List.foldl_cons]
  have hP := foldl_preserve
    (fun st : ClassState => alookup st.synth.cache o = some e0 ∧
      (alookup st.entityByUrl u = none ∨ alookup st.entityByUrl u = some e0))
    (classifyRecord ge)
    (fun s a hp => classify_ext_invariant ge s a u o e0 hge hk hp.1 hp.2)
    xs (initialState devtoolsLog) ⟨hc0i, Or.inl rfl⟩
  have hstep : alookup (classifyRecord ge (List.foldl (classifyRecord ge)
      (initialState devtoolsLog) xs) (NetworkRecord.mk u)).entityByUrl u = some e0 :=
    classify_at_u ge _ u o e0 hge hk hP.1 hP.2
  exact foldl_preserve
    (fun st : ClassState => alookup st.entityByUrl u = some e0)
    (classifyRecord ge) (fun s a hp => classify_ebu_stable ge s a u e0 hp)
    ys _ hstep

/-- C3 witness: the spec's example — origin `chrome-extension://abc123`
named "My Ext", then a record for `chrome-extension://abc123/script.js`. -/
theorem C3_witness :
    ∃ e0, alookup (compute_ geNone dataFx logC3
        [NetworkRecord.mk "chrome-extension://abc123/script.js"]).entityByUrl
        "chrome-extension://abc123/script.js" = some e0 ∧
      e0.category = "Chrome Extension" ∧
      e0.name = (LogEntry.mk "Runtime.executionContextCreated" "chrome-extension://abc123"
        "My Ext").name ∧
      e0.company = (LogEntry.mk "Runtime.executionContextCreated" "chrome-extension://abc123"
        "My Ext").name ∧
      e0.isUnrecognized = false :=
  C3_extension_preload_precedence geNone dataFx logC3
    [NetworkRecord.mk "chrome-extension://abc123/script.js"]
    "chrome-extension://abc123" "chrome-extension://abc123/script.js"
    (LogEntry.mk "Runtime.executionContextCreated" "chrome-extension://abc123" "My Ext")
    (by decide) (by decide) rfl (by decide) (by decide)

theorem compute_firstParty_twoStep (ge : String → Option Entity) (data_URL : URLArtifact)
    (devtoolsLog : List LogEntry) (networkRecords : List NetworkRecord) :
    (compute_ ge data_URL devtoolsLog networkRecords).firstParty
      = twoStepEntityLookup ge (recordsState ge devtoolsLog networkRecords).synth
          (jsOrString data_URL.mainDocumentUrl data_URL.finalDisplayedUrl) := by
  cases hge : ge (jsOrString data_URL.mainDocumentUrl data_URL.finalDisplayedUrl) with
  | some e => simp [compute_, computeState, twoStepEntityLookup, hge]
  | none => simp [compute_, computeState, twoStepEntityLookup, hge]

/-- C5: the first-party entity is resolved from the page URL metadata by
preferring `mainDocumentUrl` and falling back to `finalDisplayedUrl`
whenever `mainDocumentUrl` is absent, classified by the same two-step
lookup (known-entity reference first, then synthesis through the same
synthesized-entity cache); on a reference miss with an uncached canonical
key this registers a new synthesized entity in the cache even though no
network record shared its domain. -/
theorem C5_first_party_resolution (ge : String → Option Entity) (data_URL : URLArtifact)
    (devtoolsLog : List LogEntry) (networkRecords : List NetworkRecord) :
    (data_URL.mainDocumentUrl = none →
      (compute_ ge data_URL devtoolsLog networkRecords).firstParty
        = twoStepEntityLookup ge (recordsState ge devtoolsLog networkRecords).synth
            data_URL.finalDisplayedUrl) ∧
    (∀ m, data_URL.mainDocumentUrl = some m → m ≠ "" →
      (compute_ ge data_URL devtoolsLog networkRecords).firstParty
        = twoStepEntityLookup ge (recordsState ge devtoolsLog networkRecords).synth m) ∧
    (∀ k, ge (jsOrString data_URL.mainDocumentUrl data_URL.finalDisplayedUrl) = none →
      canonicalKey (jsOrString data_URL.mainDocumentUrl data_URL.finalDisplayedUrl) = some k →
      alookup (recordsState ge devtoolsLog networkRecords).synth.cache k = none →
      ∃ e, (compute_ ge data_URL devtoolsLog networkRecords).firstParty = some e ∧
        alookup (computeState ge data_URL devtoolsLog networkRecords).1.synth.cache k
          = some e ∧ e.isUnrecognized = true) := by
  refine ⟨?_, ?_, ?_⟩
  · intro h
    rw [compute_firstParty_twoStep]
    rw [h]
    rfl
  · intro m hm hne
    rw [compute_firstParty_twoStep]
    rw [hm]
    simp [jsOrString, hne]
  · intro k hgef hkf hmiss
    have hfresh := makeUp_fresh (recordsState ge devtoolsLog networkRecords).synth
      (jsOrString data_URL.mainDocumentUrl data_URL.finalDisplayedUrl) k hkf hmiss
    refine ⟨freshEntity k (jsOrString data_URL.mainDocumentUrl data_URL.finalDisplayedUrl)
      (recordsState ge devtoolsLog networkRecords).synth.nextId, ?_, ?_, rfl⟩
    · rw [compute_firstParty_twoStep]
      simp [twoStepEntityLookup, hgef, hfresh]
    · simp only [computeState]
      rw [hgef]
      simp only []
      rw [hfresh]
      exact alookup_aset_self _ _ _

/-- C5 witness: with `mainDocumentUrl` absent the fallback URL is used,
and its synthesized first-party entity lands in the cache although no
network record mentioned `example.org`. -/
theorem C5_witness :
    (compute_ geNone dataFx [] []).firstParty
      = twoStepEntityLookup geNone (recordsState geNone [] []).synth
          dataFx.finalDisplayedUrl ∧
    (∃ e, (compute_ geNone dataFx [] []).firstParty = some e ∧
      alookup (computeState geNone dataFx [] []).1.synth.cache "example.org" = some e ∧
      e.isUnrecognized = true) :=
  ⟨(C5_first_party_resolution geNone dataFx [] []).1 rfl,
   (C5_first_party_resolution geNone dataFx [] []).2.2 "example.org" rfl (by decide)
     (by decide)⟩

/-- C6 (counterexample to the claim as stated): `httpx:` is a scheme
other than http, https or chrome-extension, so the claim says a record
with URL `httpx://a.example.com/x` is absent from `entityByUrl` — but
the source's scheme check is `protocol.startsWith('http')`
(entity-classification.js line 27), which accepts `httpx:`; the URL is
valid, its root domain derives, and the record is classified. -/
theorem C6_counterexample :
    schemeChars "httpx://a.example.com/x".toList ≠ "http".toList ∧
    schemeChars "httpx://a.example.com/x".toList ≠ "https".toList ∧
    schemeChars "httpx://a.example.com/x".toList ≠ "chrome-extension".toList ∧
    geNone "httpx://a.example.com/x" = none ∧
    canonicalKey "httpx://a.example.com/x" = some "example.com" ∧
    (alookup (compute_ geNone dataFx []
      [NetworkRecord.mk "httpx://a.example.com/x"]).entityByUrl
      "httpx://a.example.com/x").isSome = true :=
  ⟨by decide, by decide, by decide, rfl, by decide, by decide⟩

/-- C6 (amended): a record whose URL is malformed, whose scheme fails
the code's checks (not the chrome-extension scheme and not *starting
with* `http` — the source accepts any `http`-prefixed scheme, not just
http/https), or without a derivable root domain — exactly the cases in
which no canonical key exists — never raises an error and is classified
exactly as if absent: the run over the record list with the record
removed is identical state for state, the URL is absent from
`entityByUrl`, and it belongs to no set of `urlsByEntity`. -/
theorem C6_invalid_url_omitted (ge : String → Option Entity) (data_URL : URLArtifact)
    (devtoolsLog : List LogEntry) (rs1 rs2 : List NetworkRecord) (u : String)
    (hk : canonicalKey u = none) (hge : ge u = none) :
    computeState ge data_URL devtoolsLog (rs1 ++ NetworkRecord.mk u :: rs2)
      = computeState ge data_URL devtoolsLog (rs1 ++ rs2) ∧
    alookup (compute_ ge data_URL devtoolsLog
      (rs1 ++ NetworkRecord.mk u :: rs2)).entityByUrl u = none ∧
    ∀ e, u ∉ (alookup (compute_ ge data_URL devtoolsLog
      (rs1 ++ NetworkRecord.mk u :: rs2)).urlsByEntity e).getD [] := by
  have hrec : recordsState ge devtoolsLog (rs1 ++ NetworkRecord.mk u :: rs2)
      = recordsState ge devtoolsLog (rs1 ++ rs2) := by
    unfold recordsState
    rw [List.foldl_append, List.foldl_append, List.foldl_cons]
    rw [classify_bad_noop ge _ (NetworkRecord.mk u) hk hge]
  refine ⟨?_, ?_, ?_⟩
  · simp only [computeState, hrec]
  · rw [compute_entityByUrl]
    exact records_keeps_none ge devtoolsLog _ u hk hge
  · intro e hmem
    have hinv := InvIndex_records ge devtoolsLog (rs1 ++ NetworkRecord.mk u :: rs2)
    rw [compute_urlsByEntity] at hmem
    have hcls := (hinv.1 u e).mp hmem
    rw [records_keeps_none ge devtoolsLog _ u hk hge] at hcls
    cases hcls

/-- C6 witness: a `data:` URL record amid two web records — no key, no
entry, no membership, identical run without it. -/
theorem C6_witness :
    canonicalKey "data:text/plain,hi" = none ∧
    computeState geNone dataFx [] (recsAB ++ NetworkRecord.mk "data:text/plain,hi" :: [])
      = computeState geNone dataFx [] (recsAB ++ []) ∧
    alookup (compute_ geNone dataFx []
      (recsAB ++ NetworkRecord.mk "data:text/plain,hi" :: [])).entityByUrl
      "data:text/plain,hi" = none ∧
    ∀ e, "data:text/plain,hi" ∉ (alookup (compute_ geNone dataFx []
      (recsAB ++ NetworkRecord.mk "data:text/plain,hi" :: [])).urlsByEntity e).getD [] := by
  have h := C6_invalid_url_omitted geNone dataFx [] recsAB [] "data:text/plain,hi"
    (by decide) rfl
  exact ⟨by decide, h.1, h.2.1, h.2.2⟩

/-- C8: for every entity reachable in the classification result (via
`entityByUrl` or as `firstParty`), and in a run whose known-entity
reference never sets the flag (as the reference dataset's canonical
records do not), `isUnrecognized = true` implies the entity was produced
by placeholder synthesis under its URL's canonical key — carrying the
synthesized shape `name = company = key`, empty `category` (hence not
the extension-preload shape, whose category is "Chrome Extension") and
no `homepage` (the preload path always sets one). -/
theorem C8_unrecognized_only_synthesized (ge : String → Option Entity) (data_URL : URLArtifact)
    (devtoolsLog : List LogEntry) (networkRecords : List NetworkRecord)
    (hge : ∀ v e, ge v = some e → e.isUnrecognized = false) :
    (∀ u e, alookup (compute_ ge data_URL devtoolsLog networkRecords).entityByUrl u = some e →
      e.isUnrecognized = true →
      ∃ k, canonicalKey u = some k ∧ e.name = k ∧ e.company = k ∧
        e.category = "" ∧ e.homepage = none) ∧
    (∀ e, (compute_ ge data_URL devtoolsLog networkRecords).firstParty = some e →
      e.isUnrecognized = true →
      ∃ k, canonicalKey (jsOrString data_URL.mainDocumentUrl data_URL.finalDisplayedUrl)
          = some k ∧ e.name = k ∧ e.company = k ∧ e.category = "" ∧ e.homepage = none) := by
  have hsyn := SynthOnly_records ge devtoolsLog networkRecords
  constructor
  · intro u e h htrue
    rcases resolved_compute ge data_URL devtoolsLog networkRecords u e h with hl | ⟨k, hk, hc⟩
    · rw [hge u e hl] at htrue
      cases htrue
    · obtain ⟨hn, hcp, hcat, hhp, _, _, _, _⟩ := hsyn k e hc htrue
      exact ⟨k, hk, hn, hcp, hcat, hhp⟩
  · intro e h htrue
    rw [compute_firstParty_twoStep] at h
    revert h
    unfold twoStepEntityLookup
    cases hgef : ge (jsOrString data_URL.mainDocumentUrl data_URL.finalDisplayedUrl) with
    | some e0 =>
        intro h
        have he : e0 = e := Option.some_inj.mp h
        rw [← he] at htrue
        rw [hge _ e0 hgef] at htrue
        cases htrue
    | none =>
        intro h
        obtain ⟨k, hk, hc⟩ := makeUp_some_spec _ _ e h
        have hsyn2 := SynthOnly_makeUp (recordsState ge devtoolsLog networkRecords).synth
          (jsOrString data_URL.mainDocumentUrl data_URL.finalDisplayedUrl) hsyn
        obtain ⟨hn, hcp, hcat, hhp, _, _, _, _⟩ := hsyn2 k e hc htrue
        exact ⟨k, hk, hn, hcp, hcat, hhp⟩

/-- C8 witness: the `geNone`/`recsAB` run — its only unrecognized
entities carry the synthesized shape under their canonical keys. -/
theorem C8_witness :
    (∀ u e, alookup (compute_ geNone dataFx [] recsAB).entityByUrl u = some e →
      e.isUnrecognized = true →
      ∃ k, canonicalKey u = some k ∧ e.name = k ∧ e.company = k ∧
        e.category = "" ∧ e.homepage = none) ∧
    (∀ e, (compute_ geNone dataFx [] recsAB).firstParty = some e →
      e.isUnrecognized = true →
      ∃ k, canonicalKey (jsOrString dataFx.mainDocumentUrl dataFx.finalDisplayedUrl)
          = some k ∧ e.name = k ∧ e.company = k ∧ e.category = "" ∧ e.homepage = none) :=
  C8_unrecognized_only_synthesized geNone dataFx [] recsAB
    (fun _ _ h => Option.noConfusion h)

/-! Single-flight lemmas for the spec-modelled computed-artifact
wrapper. -/

theorem wstep_request_noop (st : WrapperState) (k : String)
    (h : (alookup st.cache k).isSome = true) :
    wstep st (WEvent.request k) = st := by
  cases hc : alookup st.cache k with
  | none => rw [hc] at h; cases h
  | some slot => simp [wstep, hc]

theorem wstep_keyQ (st : WrapperState) (k : String) (ev : WEvent)
    (hk : eventKey ev = k)
    (hq : (alookup st.cache k).isSome = true ∧ st.producerRuns = 1) :
    (alookup (wstep st ev).cache k).isSome = true ∧ (wstep st ev).producerRuns = 1 := by
  cases ev with
  | request k2 =>
      have hkk : k2 = k := hk
      subst hkk
      rw [wstep_request_noop st k2 hq.1]
      exact hq
  | complete k2 o =>
      have hkk : k2 = k := hk
      subst hkk
      cases hc : alookup st.cache k2 with
      | none => rw [hc] at hq; cases hq.1
      | some slot =>
          cases slot with
          | pending =>
              simp only [wstep, hc]
              refine ⟨?_, hq.2⟩
              rw [alookup_aset_self]
              rfl
          | settled o2 =>
              simpa [wstep, hc] using hq

theorem wstep_keyP (st : WrapperState) (k : String) (ev : WEvent)
    (hk : eventKey ev = k)
    (hp : (alookup st.cache k = none ∧ st.producerRuns = 0) ∨
      ((alookup st.cache k).isSome = true ∧ st.producerRuns = 1)) :
    (alookup (wstep st ev).cache k = none ∧ (wstep st ev).producerRuns = 0) ∨
      ((alookup (wstep st ev).cache k).isSome = true ∧ (wstep st ev).producerRuns = 1) := by
  rcases hp with ⟨hc, hr⟩ | hq
  · cases ev with
    | request k2 =>
        have hkk : k2 = k := hk
        subst hkk
        right
        simp only [wstep, hc]
        constructor
        · rw [alookup_aset_self]
          rfl
        · rw [hr]
    | complete k2 o =>
        have hkk : k2 = k := hk
        subst hkk
        left
        simp only [wstep, hc]
        exact ⟨trivial, hr⟩
  · right
    exact wstep_keyQ st k ev hk hq

theorem wstep_request_establishes (st : WrapperState) (k : String)
    (hp : (alookup st.cache k = none ∧ st.producerRuns = 0) ∨
      ((alookup st.cache k).isSome = true ∧ st.producerRuns = 1)) :
    (alookup (wstep st (WEvent.request k)).cache k).isSome = true ∧
      (wstep st (WEvent.request k)).producerRuns = 1 := by
  rcases hp with ⟨hc, hr⟩ | hq
  · simp only [wstep, hc]
    constructor
    · rw [alookup_aset_self]
      rfl
    · rw [hr]
  · rw [wstep_request_noop st k hq.1]
    exact hq

theorem wrun_requests_noop (k : String) (st : WrapperState)
    (hq : (alookup st.cache k).isSome = true) :
    ∀ (more : List WEvent), (∀ ev ∈ more, ev = WEvent.request k) →
      more.foldl wstep st = st := by
  intro more
  induction more with
  | nil => intro _; rfl
  | cons a t ih =>
      intro h
      have ha := h a (List.mem_cons_self a t)
      rw [List.foldl_cons, ha, wstep_request_noop st k hq]
      exact ih (fun ev hev => h ev (List.mem_cons_of_mem _ hev))

/-- C9: in the spec-modelled single-flight wrapper (computed-artifact.js
is not part of the excerpt), any cooperative event trace on one
fingerprint key that contains at least one request invokes the producer
exactly once, and any number of further concurrent requests for the same
key leaves the invocation count at one and observes the same settled
outcome (the same result or the same cached failure). -/
theorem C9_single_flight (evs : List WEvent) (k : String)
    (hkeys : ∀ ev ∈ evs, eventKey ev = k)
    (hreq : WEvent.request k ∈ evs) :
    (wrun evs).producerRuns = 1 ∧
    (∀ more : List WEvent, (∀ ev ∈ more, ev = WEvent.request k) →
      (wrun (evs ++ more)).producerRuns = 1 ∧
      observedOutcome (wrun (evs ++ more)) k = observedOutcome (wrun evs) k) := by
  have hq : (alookup (wrun evs).cache k).isSome = true ∧ (wrun evs).producerRuns = 1 := by
    obtain ⟨xs, ys, hsplit⟩ := List.append_of_mem hreq
    subst hsplit
    have hkxs : ∀ ev ∈ xs, eventKey ev = k := fun ev h =>
      hkeys ev (List.mem_append_left _ h)
    have hkys : ∀ ev ∈ ys, eventKey ev = k := fun ev h =>
      hkeys ev (List.mem_append_right _ (List.mem_cons_of_mem _ h))
    unfold wrun
    rw [List.foldl_append, List.foldl_cons]
    have hxs := foldl_preserve_mem
      (fun st : WrapperState => (alookup st.cache k = none ∧ st.producerRuns = 0) ∨
        ((alookup st.cache k).isSome = true ∧ st.producerRuns = 1))
      wstep xs (fun a ha s hs => wstep_keyP s k a (hkxs a ha) hs)
      ⟨[], 0⟩ (Or.inl ⟨rfl, rfl⟩)
    have hafter := wstep_request_establishes _ k hxs
    exact foldl_preserve_mem
      (fun st : WrapperState => (alookup st.cache k).isSome = true ∧ st.producerRuns = 1)
      wstep ys (fun a ha s hs => wstep_keyQ s k a (hkys a ha) hs)
      _ hafter
  refine ⟨hq.2, ?_⟩
  intro more hmore
  have hnoop : (wrun (evs ++ more)) = wrun evs := by
    unfold wrun
    rw [List.foldl_append]
    exact wrun_requests_noop k _ hq.1 more hmore
  rw [hnoop]
  exact ⟨hq.2, rfl⟩

/-- C9 witness: two requests, the completion, then a late request, and
one more request appended after — one producer run, stable outcome. -/
theorem C9_witness :
    (wrun evsC9).producerRuns = 1 ∧
    (wrun (evsC9 ++ [WEvent.request "EC|log1"])).producerRuns = 1 ∧
    observedOutcome (wrun (evsC9 ++ [WEvent.request "EC|log1"])) "EC|log1"
      = observedOutcome (wrun evsC9) "EC|log1" := by
  have h := C9_single_flight evsC9 "EC|log1" (by decide) (by decide)
  have h2 := h.2 [WEvent.request "EC|log1"] (by decide)
  exact ⟨h.1, h2.1, h2.2⟩
